import Mathlib

/-!
Verification development for the snapshot engine of the
Assignment-Submission-CLI repository (src/controls/snap.ts,
src/utils/recursive.ts).

Modelling conventions:
* File contents are modelled as `String` (a stand-in for the raw byte
  sequence); the SHA-1 digest function from `crypto` is an external
  library, so every definition is parametric in an abstract
  `sha1 : String → String`.
* Filesystem directory listings are modelled as lists in enumeration
  order (`FSEntries`); `readdir` returns that order.
* `JSON.stringify`/`zlib.gzipSync` (and their inverses) are injective
  encodings, so persisted structured payloads are modelled by the
  structured values themselves.
* Side effects (mkdir, file writes) are collected in effect traces.
* Mutual inductives are used instead of nested `List`-inductives so that
  every function is structurally recursive and evaluates by `decide`.
-/

/-! ### JS string primitives (modelled over `List Char`) -/

/-- Model of JS `String.prototype.trim` for the ASCII whitespace that the
repository's ignore files can contain. -/
def isWSChar (c : Char) : Bool :=
  c == ' ' || c == '\t' || c == '\n' || c == '\r'

def trimChars (l : List Char) : List Char :=
  ((l.dropWhile isWSChar).reverse.dropWhile isWSChar).reverse

/-- Model of `line.trim()`. -/
def jsTrim (s : String) : String := .mk (trimChars s.data)

/-- Split a character list at every occurrence of `sep`. -/
def splitChar (sep : Char) : List Char → List (List Char)
  | [] => [[]]
  | c :: rest =>
    let r := splitChar sep rest
    if c == sep then [] :: r
    else
      match r with
      | [] => [[c]]
      | h :: t => (c :: h) :: t

/-- Model of `content.split("\n")`. -/
def jsLines (s : String) : List String := (splitChar '\n' s.data).map String.mk

/-- A relative path such as `"d/x"` broken into segments; used to model
what `path.join(base, rel)` appends. -/
def pathSegs (s : String) : List String := (splitChar '/' s.data).map String.mk

def listStartsWith : List Char → List Char → Bool
  | _, [] => true
  | [], _ :: _ => false
  | a :: as, b :: bs => a == b && listStartsWith as bs

/-- Model of `s.endsWith(suffix)`. -/
def strEndsWith (s suffix : String) : Bool :=
  listStartsWith s.data.reverse suffix.data.reverse

/-- Model of `s.startsWith(p)`. -/
def strStartsWith (s p : String) : Bool := listStartsWith s.data p.data

/-- Model of `s.includes(c)` for a single character. -/
def strContainsChar (s : String) (c : Char) : Bool := s.data.contains c

/-! ### The `localeCompare` comparator

`snap.ts` sorts tree children with `a.name.localeCompare(b.name)`.  Node's
default (ICU root) collation compares letters case-insensitively at the
primary level (so `"a"` orders before `"B"`), breaking primary ties by
case with lowercase first.  We model this for ASCII strings: a primary
key folds `A`–`Z` to the corresponding lowercase code, and a tertiary key
records the case bit; strings compare lexicographically on the whole
primary key first, then on the case keys.  This differs from raw
byte/lexicographic comparison (`'B' < 'a'` bytewise). -/

def charPrimary (c : Char) : Nat :=
  if 65 ≤ c.toNat ∧ c.toNat ≤ 90 then c.toNat + 32 else c.toNat

def charCase (c : Char) : Nat :=
  if 65 ≤ c.toNat ∧ c.toNat ≤ 90 then 1 else 0

def cmpNatList : List Nat → List Nat → Ordering
  | [], [] => .eq
  | [], _ :: _ => .lt
  | _ :: _, [] => .gt
  | a :: as, b :: bs =>
    if a < b then .lt else if b < a then .gt else cmpNatList as bs

/-- Model of `s.localeCompare(t)` (ICU root collation, ASCII range). -/
def localeCmp (s t : String) : Ordering :=
  (cmpNatList (s.data.map charPrimary) (t.data.map charPrimary)).then
    (cmpNatList (s.data.map charCase) (t.data.map charCase))

/-! ### Data model -/

/- A directory tree as the filesystem presents it: file contents as raw
strings, directory entries in enumeration (`readdir`) order.  Mutual with
`FSEntries` (a plain list of named entries) for structural recursion. -/
mutual
inductive FSNode where
  | file (content : String)
  | dir (entries : FSEntries)
inductive FSEntries where
  | nil
  | cons (name : String) (node : FSNode) (rest : FSEntries)
end

/-- Model of `TreeObject.type` from `snap.ts`. -/
inductive NType where
  | tree
  | blob
deriving DecidableEq

/- `TreeObject` from `snap.ts`: `{type, name, hash, children}`.  A blob's
absent `children` is modelled as the empty list (`recursive.ts` reads it
as `tree.children || []`). -/
mutual
inductive TObj where
  | node (type : NType) (name : String) (hash : String) (children : TList)
inductive TList where
  | nil
  | cons (t : TObj) (rest : TList)
end

def TObj.type : TObj → NType | .node t _ _ _ => t
def TObj.name : TObj → String | .node _ n _ _ => n
def TObj.hash : TObj → String | .node _ _ h _ => h
def TObj.children : TObj → TList | .node _ _ _ c => c

def TList.toList : TList → List TObj
  | .nil => []
  | .cons t rest => t :: rest.toList

def TList.ofList : List TObj → TList
  | [] => .nil
  | t :: rest => .cons t (TList.ofList rest)

def FSEntries.toList : FSEntries → List (String × FSNode)
  | .nil => []
  | .cons n x rest => (n, x) :: rest.toList

def FSEntries.ofList : List (String × FSNode) → FSEntries
  | [] => .nil
  | (n, x) :: rest => .cons n x (FSEntries.ofList rest)

/-- Top-level entry names, in enumeration order. -/
def FSEntries.names : FSEntries → List String
  | .nil => []
  | .cons n _ rest => n :: rest.names

/-- First entry with the given name (filesystem lookup). -/
def FSEntries.lookup : FSEntries → String → Option FSNode
  | .nil, _ => none
  | .cons n x rest, m => if n == m then some x else rest.lookup m

/-! ### Tree hasher (`calculateTreeHash` / `calculateFileHash`) -/

/-- The sort comparator wrapped around `localeCompare`: `a` may stay
before `b` exactly when `a.name.localeCompare(b.name) <= 0`. -/
def kidLE (a b : TObj) : Bool := (localeCmp a.name b.name).isLE

/-- JS `Array.prototype.sort` is a stable sort; its result is therefore
the unique stably-sorted permutation, which insertion sort computes. -/
def sortKids (l : List TObj) : List TObj :=
  l.insertionSort (fun a b => kidLE a b = true)

def ntypeStr : NType → String
  | .tree => "tree"
  | .blob => "blob"

/-- Serialization of one sorted child:
`` `${obj.type} ${obj.name}\0${obj.hash}` ``. -/
def serializeKid (k : TObj) : String :=
  ntypeStr k.type ++ " " ++ k.name ++ (Char.ofNat 0).toString ++ k.hash

/-- Concatenated serialization of the (sorted) child sequence. -/
def serializeKids (l : List TObj) : String := String.join (l.map serializeKid)

/-- The skip test at the top of the `calculateTreeHash` entry loop:
`.subsys`, `node_modules` and `config.json` are always excluded, then the
resolved ignore list. -/
def isExcluded (ign : List String) (n : String) : Bool :=
  n == ".subsys" || n == "node_modules" || n == "config.json" || ign.contains n

/- `calculateTreeHash`/`calculateFileHash` from `snap.ts` over a model
filesystem.  `calcNode sha1 ign name fsn` is the `TreeObject` computed for
an entry called `name` holding `fsn`; the top-level call uses `name = ""`
(the root `treeObject` has `name: ""`).  For a directory the source calls
`calculateTreeHash` twice (once for `hash`, once for `children`); both
calls return the same value, so the model computes it once.  Children are
collected skipping excluded names, sorted with `localeCompare`, and the
directory hash is the hash of the serialized sorted children. -/
mutual
def calcNode (sha1 : String → String) (ign : List String) (name : String)
    (fsn : FSNode) : TObj :=
  match fsn with
  | .file c => .node .blob name (sha1 c) .nil
  | .dir es =>
    let kids := sortKids (calcKids sha1 ign es).toList
    .node .tree name (sha1 (serializeKids kids)) (TList.ofList kids)
def calcKids (sha1 : String → String) (ign : List String) (es : FSEntries) :
    TList :=
  match es with
  | .nil => .nil
  | .cons n x rest =>
    if isExcluded ign n then calcKids sha1 ign rest
    else .cons (calcNode sha1 ign n x) (calcKids sha1 ign rest)
end

/-- Executable `Nodup` check on a name list. -/
def nodupNames : List String → Bool
  | [] => true
  | n :: rest => !(rest.contains n) && nodupNames rest

/- A real directory tree never lists one name twice in the same
directory; this (recursive) well-formedness condition states it. -/
mutual
def ndNode : FSNode → Bool
  | .file _ => true
  | .dir es => nodupNames es.names && ndEntries es
def ndEntries : FSEntries → Bool
  | .nil => true
  | .cons _ x rest => ndNode x && ndEntries rest
end

/-- The entry-name comparator used by `canonFS`. -/
def entLE (a b : String × FSNode) : Bool := (localeCmp a.1 b.1).isLE

/- Recursively sort every directory listing by entry name: two model
filesystems are the same tree up to enumeration order exactly when their
`canonFS` normal forms coincide (given duplicate-free names). -/
mutual
def canonFS : FSNode → FSNode
  | .file c => .file c
  | .dir es =>
    .dir (FSEntries.ofList
      (((canonEntries es).toList).insertionSort (fun a b => entLE a b = true)))
def canonEntries : FSEntries → FSEntries
  | .nil => .nil
  | .cons n x rest => .cons n (canonFS x) (canonEntries rest)
end

/-- The `calcKids` loop transported to plain lists of entries (a proof-side view
of the same child-collection loop). -/
def calcKidsL (sha1 : String → String) (ign : List String) :
    List (String × FSNode) → List TObj
  | [] => []
  | (n, x) :: rest =>
    if isExcluded ign n then calcKidsL sha1 ign rest
    else calcNode sha1 ign n x :: calcKidsL sha1 ign rest

/-! ### Snapshot name sanitization

`snap` builds `sanitizedSnapshotName` by replacing every maximal run of
characters outside `[a-zA-Z0-9]` with `-` and lowercasing, and refuses
when the result differs from the caller-supplied name. -/

def isAlnumChar (c : Char) : Bool :=
  (97 ≤ c.toNat && c.toNat ≤ 122) || (65 ≤ c.toNat && c.toNat ≤ 90) ||
    (48 ≤ c.toNat && c.toNat ≤ 57)

mutual
def sanitizeRun : List Char → List Char
  | [] => []
  | c :: cs =>
    if isAlnumChar c then c.toLower :: sanitizeRun cs
    else '-' :: sanitizeSkip cs
def sanitizeSkip : List Char → List Char
  | [] => []
  | c :: cs =>
    if isAlnumChar c then c.toLower :: sanitizeRun cs
    else sanitizeSkip cs
end

/-- Model of `snapshotName.replace(/[^a-zA-Z0-9]+/g, "-").toLowerCase()`. -/
def sanitizeName (s : String) : String := .mk (sanitizeRun s.data)

/-! ### Ignore resolver (`getIgnoreList`)

Patterns come from `.subsysignore` in the target directory: lines are
trimmed, blanks skipped, a line containing `*` is expanded by
`glob.sync(pattern, {cwd})` (each match added), a literal line is added
verbatim.  `glob` without `/` or `**` matches top-level entry names, and
a `*` wildcard does not match a leading dot. -/

def wildMatch : List Char → List Char → Bool
  | [], [] => true
  | [], _ :: _ => false
  | '*' :: ps, ns =>
    wildMatch ps ns ||
      (match ns with
       | [] => false
       | _ :: ns' => wildMatch ('*' :: ps) ns')
  | p :: ps, n :: ns => p == n && wildMatch ps ns
  | _ :: _, [] => false
termination_by ps ns => (ps.length, ns.length)

/-- Model of `glob.sync(pat, {cwd})` membership for one entry name. -/
def globMatch (pat name : String) : Bool :=
  if strStartsWith name "." && !strStartsWith pat "." then false
  else wildMatch pat.data name.data

def addUniq (l : List String) (x : String) : List String :=
  if l.contains x then l else l ++ [x]

def ignoreStep (fs : FSEntries) (acc : List String) (line : String) :
    List String :=
  let t := jsTrim line
  if t == "" then acc
  else if strContainsChar t '*' then
    (fs.names.filter (globMatch t)).foldl addUniq acc
  else addUniq acc t

/-- Model of `getIgnoreList(cwd)`; `.error` models the `catch` branch rethrowing
(`throw new Error("Error")`) when the ignore file exists but cannot be
read as text — e.g. it is a directory. -/
def getIgnoreList (fs : FSEntries) : Except Unit (List String) :=
  match fs.lookup ".subsysignore" with
  | none => .ok []
  | some (.dir _) => .error ()
  | some (.file content) =>
    .ok ((jsLines content).foldl (ignoreStep fs) [])

/-! ### The snapshot log (`logTrack.json`) and duplicate detection

The log file is read with `fs.readFileSync` + `JSON.parse` and scanned
with `Array.prototype.some`.  The file state is modelled as
`Option (Except Unit Json)`: `none` — the file does not exist;
`some (.error ())` — reading or parsing it throws; `some (.ok j)` — it
parses to the JSON value `j`. -/

inductive Json where
  | null
  | bool (b : Bool)
  | num (n : Int)
  | str (s : String)
  | arr (xs : List Json)
  | obj (fields : List (String × Json))

/-- JS property lookup on a parsed JSON value: `undefined` (`none`) for a
missing key or a non-object receiver, a thrown `TypeError` (`.error`) for
`null`.  Duplicate keys in a JSON object keep the last occurrence. -/
def jsField : Json → String → Except Unit (Option Json)
  | .null, _ => .error ()
  | .obj fields, k =>
    .ok (fields.foldl (fun acc p => if p.1 == k then some p.2 else acc) none)
  | _, _ => .ok none

/-- Model of `entry.<field> === v` for a string `v`: `undefined === v` and any
non-string value `=== v` are `false`. -/
def fieldEqStr (e : Json) (field v : String) : Except Unit Bool :=
  match jsField e field with
  | .error u => .error u
  | .ok (some (.str s)) => .ok (s == v)
  | .ok _ => .ok false

/-- Model of `Array.prototype.some`: short-circuiting, propagating a throw. -/
def jsSome (f : Json → Except Unit Bool) : List Json → Except Unit Bool
  | [] => .ok false
  | e :: rest =>
    match f e with
    | .error u => .error u
    | .ok true => .ok true
    | .ok false => jsSome f rest

/-- Model of `logTrack.some(...)` where `logTrack` is whatever `JSON.parse`
produced: calling `.some` on a non-array throws. -/
def jsSomeOn (j : Json) (f : Json → Except Unit Bool) : Except Unit Bool :=
  match j with
  | .arr xs => jsSome f xs
  | _ => .error ()

/-- Model of `isDuplicateName(snapshotDir, name)`: `false` when the log file does
not exist; on any throw inside the `try` (read failure, parse failure, or
a `TypeError` while scanning) the `catch` returns `true`. -/
def isDuplicateName (st : Option (Except Unit Json)) (name : String) : Bool :=
  match st with
  | none => false
  | some (.error _) => true
  | some (.ok j) =>
    match jsSomeOn j (fun e => fieldEqStr e "treeName" name) with
    | .error _ => true
    | .ok b => b

/-- Model of `isDuplicateSHA(snapshotDir, currentHash)`: same structure, scanning
the `SHA` field. -/
def isDuplicateSHA (st : Option (Except Unit Json)) (currentHash : String) :
    Bool :=
  match st with
  | none => false
  | some (.error _) => true
  | some (.ok j) =>
    match jsSomeOn j (fun e => fieldEqStr e "SHA" currentHash) with
    | .error _ => true
    | .ok b => b

/-! ### Object store and effect traces

All paths are relative to the working directory and modelled as segment
lists.  `JSON.stringify` + `gzipSync` are injective encodings, so the
artifact and log writes carry the structured payloads themselves. -/

/-- One `{name, hash}` record pushed onto `snapshotData.files`.  The
restore side (`recursive.ts`) additionally reads a `type` property from
such records; the objects written by `snap` have none, which the model
renders as `none`. -/
structure FileRec where
  name : String
  hash : String
  ftype : Option String := none
deriving DecidableEq

/-- The persisted snapshot payload `{tree, files}`. -/
structure Artifact where
  tree : TObj
  files : List FileRec

inductive Eff where
  | mkdirp (path : List String)
  | writeArtifact (path : List String) (artifact : Artifact)
  | writeLog (path : List String) (content : Json)
  | writeObject (path : List String) (content : String)

def Eff.path : Eff → List String
  | .mkdirp p => p
  | .writeArtifact p _ => p
  | .writeLog p _ => p
  | .writeObject p _ => p

/-- The object store path pieces for a digest: first two characters as
the shard directory, remainder as the filename
(`fileHash.substring(0, 2)` / `fileHash.slice(2)`). -/
def objKey (h : String) : String × String := (h.take 2, h.drop 2)

/-- Object store state: which shard directories exist, and the content
stored at each `shard/file` path. -/
structure StoreSt where
  shards : List String
  objects : (String × String) → Option String

/-- The object-store write inlined in `processEntry` (the Object Store
`put`): create the shard directory when its path does not exist, then
`fs.writeFileSync(objectFile, fileContent)` — unconditionally. -/
def putObject (st : StoreSt) (h content : String) : StoreSt × List Eff :=
  let k := objKey h
  let mkEffs : List Eff :=
    if st.shards.contains k.1 then []
    else [.mkdirp [".subsys", "objects", k.1]]
  (⟨if st.shards.contains k.1 then st.shards else k.1 :: st.shards,
    fun k' => if k' = k then some content else st.objects k'⟩,
   mkEffs ++ [.writeObject [".subsys", "objects", k.1, k.2] content])

/-- Model of the `path.join` of an accumulated relative path with an entry name, as
`path.relative(baseDir, entryPath)` produces it when `baseDir` resolves
to the working directory itself. -/
def joinRel (r n : String) : String := if r == "" then n else r ++ "/" ++ n

/- `processEntry(entryPath, baseDir, objectsDir, treeObjects, snapshotData)`
from `snap.ts`: walks the directory with NO exclusion checks, stores every
file's bytes in the object store, and appends a `{name, hash}` record for
every file to `snapshotData.files`.  The `treeObjects` accumulator it also
builds is only pushed into the in-memory `treeObject` after the artifact
and the log have been persisted, and the root hash recomputed from it
(lines 307–313) is written nowhere, so neither appears in persisted
state; the model returns the store state, the effect trace, and the
`files` records.  Both directory walks (`calculateTreeHash` and
`processEntry`) are modelled over the same immutable listing; the spec
requires the directory to be quiescent during the operation. -/
mutual
def procNode (sha1 : String → String) (rel : String) (st : StoreSt)
    (fsn : FSNode) : StoreSt × List Eff × List FileRec :=
  match fsn with
  | .file c =>
    let h := sha1 c
    let r := putObject st h c
    (r.1, r.2, [{ name := rel, hash := h }])
  | .dir es => procEntries sha1 rel st es
def procEntries (sha1 : String → String) (rel : String) (st : StoreSt)
    (es : FSEntries) : StoreSt × List Eff × List FileRec :=
  match es with
  | .nil => (st, [], [])
  | .cons n x rest =>
    let r1 := procNode sha1 (joinRel rel n) st x
    let r2 := procEntries sha1 rel r1.1 rest
    (r2.1, r1.2.1 ++ r2.2.1, r1.2.2 ++ r2.2.2)
end

/-! ### `snap(cwd, snapshotName)` -/

inductive SnapOutcome where
  | invalidName
  | ignoreThrow
  | dupName
  | dupContent
  | createError
  | ok
deriving DecidableEq

structure SnapResult where
  outcome : SnapOutcome
  effects : List Eff

/-- Pre-state of the working directory's `.subsys` metadata. -/
structure SnapEnv where
  fs : FSEntries
  logSt : Option (Except Unit Json)
  snapshotDirExists : Bool
  objectsDirExists : Bool
  store : StoreSt

/-- Model of `snap(cwd, snapshotName)`: validate the slug, ensure the metadata
directories, resolve the ignore list, hash the tree, run both duplicate
checks, then persist the artifact (with the still-empty `files` list),
append to `logTrack.json`, and only afterwards run `processEntry`.
`createError` is the `catch` around the artifact/log writes: by then the
artifact write has already happened.  Disk writes themselves are assumed
to succeed. -/
def snap (sha1 : String → String) (env : SnapEnv) (snapshotName : String) :
    SnapResult :=
  let sanitized := sanitizeName snapshotName
  if sanitized != snapshotName then ⟨.invalidName, []⟩
  else
    let pre : List Eff :=
      (if env.snapshotDirExists then []
       else [.mkdirp [".subsys", "snapshots"]]) ++
      (if env.objectsDirExists then [] else [.mkdirp [".subsys", "objects"]])
    match getIgnoreList env.fs with
    | .error _ => ⟨.ignoreThrow, pre⟩
    | .ok ign =>
      let tree := calcNode sha1 ign "" (.dir env.fs)
      if isDuplicateName env.logSt sanitized then ⟨.dupName, pre⟩
      else if isDuplicateSHA env.logSt tree.hash then ⟨.dupContent, pre⟩
      else
        let artEff : Eff :=
          .writeArtifact [".subsys", "snapshots", sanitized ++ ".gz"]
            ⟨tree, []⟩
        match
          (match env.logSt with
           | none => some []
           | some (.ok (.arr xs)) => some xs
           | _ => none) with
        | none => ⟨.createError, pre ++ [artEff]⟩
        | some xs =>
          let entry : Json :=
            .obj [("treeName", .str snapshotName), ("SHA", .str tree.hash)]
          let logEff : Eff :=
            .writeLog [".subsys", "snapshots", "logTrack.json"]
              (.arr (xs ++ [entry]))
          let r := procNode sha1 "" env.store (.dir env.fs)
          ⟨.ok, pre ++ [artEff, logEff] ++ r.2.1⟩

/-! ### Snapshot loader (`decompressSnapshot`) -/

/-- State of the candidate artifact file.  `corrupt`: `gunzipSync`
throws; `payload none`: it decompresses but `JSON.parse` throws;
`payload (some j)`: the payload parses to `j` (which the source returns
as the snapshot without any shape validation). -/
inductive GzState where
  | corrupt
  | payload (p : Option Json)

inductive SnapFileState where
  | missing
  | notFile
  | regular (gz : GzState)

/-- Model of `decompressSnapshot(snapshotFile)` from `recursive.ts`: `statSync`
(throwing for a missing path, caught), the `isFile()` and `.endsWith(".gz")`
guards, then decompress + parse, with every failure path caught and turned
into `null` (`none`). -/
def decompressSnapshot (pathName : String) (st : SnapFileState) :
    Option Json :=
  match st with
  | .missing => none
  | .notFile => none
  | .regular gz =>
    if strEndsWith pathName ".gz" then
      match gz with
      | .corrupt => none
      | .payload p => p
    else none

/-! ### Tree reconstructor (`recreateTree` / `recreateTreeHelper`) -/

inductive REff where
  | mkdirp (p : List String)
  | writeFile (p : List String) (content : String)
deriving DecidableEq

inductive RDiag where
  | missingObject (p : List String)
  | notAFile (p : List String)
deriving DecidableEq

/-- Restore-time environment: the object store contents (keyed by the
`shard × filename` pair derived from a digest) and a `statSync` model for
the destination (`none`: path absent, so `statSync` throws; `some true`:
a regular file; `some false`: exists but is not a file). -/
structure RestoreEnv where
  store : String × String → Option String
  destStat : List String → Option Bool

/-- Model of `path.basename(snapName, path.extname(snapName))`. -/
def stripExt (s : String) : String :=
  let rev := s.data.reverse
  if rev.contains '.' then
    match rev.dropWhile (fun c => c != '.') with
    | '.' :: [] => s
    | '.' :: rest => .mk rest.reverse
    | _ => s
  else s

/- `recreateTreeHelper(tree, parentPath, baseDir)`: walk `tree.children`;
a tree child gets `mkdirSync(childPath, {recursive: true})` and a
recursive call; a blob child is copied from the object store when the
object file exists, else a per-file "object file not found" diagnostic is
printed and the loop continues. -/
mutual
def helperNode (store : String × String → Option String)
    (parentPath : List String) (t : TObj) : List REff × List RDiag :=
  match t with
  | .node ty n h kids =>
    let childPath := parentPath ++ [n]
    match ty with
    | .tree =>
      let r := helperList store childPath kids
      (.mkdirp childPath :: r.1, r.2)
    | .blob =>
      match store (objKey h) with
      | some content => ([.writeFile childPath content], [])
      | none => ([], [.missingObject childPath])
def helperList (store : String × String → Option String)
    (parentPath : List String) (ts : TList) : List REff × List RDiag :=
  match ts with
  | .nil => ([], [])
  | .cons c rest =>
    let r1 := helperNode store parentPath c
    let r2 := helperList store parentPath rest
    (r1.1 ++ r2.1, r1.2 ++ r2.2)
end

/-- The first restoration pass: the loop over `snapshot.files`.  Records
whose `type` is not `"blob"` are skipped (the records `snap` writes carry
no `type` at all).  For a blob record, `fs.statSync(filePath)` runs
BEFORE anything else: on a missing destination path it throws, and no
`catch` exists in `recreateTree`, so the whole restoration aborts
(`.error`).  Otherwise a missing object yields a per-file diagnostic and
the loop continues. -/
def pass1 (env : RestoreEnv) (dirPath : List String) :
    List FileRec → Except Unit (List REff × List RDiag)
  | [] => .ok ([], [])
  | f :: rest =>
    if f.ftype == some "blob" then
      let filePath := dirPath ++ pathSegs f.name
      match env.destStat filePath with
      | none => .error ()
      | some false =>
        match pass1 env dirPath rest with
        | .error u => .error u
        | .ok r => .ok (r.1, .notAFile filePath :: r.2)
      | some true =>
        match env.store (objKey f.hash) with
        | some content =>
          match pass1 env dirPath rest with
          | .error u => .error u
          | .ok r => .ok (.writeFile filePath content :: r.1, r.2)
        | none =>
          match pass1 env dirPath rest with
          | .error u => .error u
          | .ok r => .ok (r.1, .missingObject filePath :: r.2)
    else pass1 env dirPath rest

/-- The `directoryPath` a named restore materializes into (`tree.name`
is `""` for artifacts written by `snap`, and `path.join` drops the empty
segment). -/
def restoreDirPath (art : Artifact) (snapName : String) : List String :=
  [".subsys", "snapshots", stripExt snapName] ++
    (if art.tree.name == "" then [] else [art.tree.name])

/-- Model of `recreateTree(snapshot, baseDir, snapName)` with a snapshot name
given: build `directoryPath`, `mkdirSync` it, run the `snapshot.files`
pass, then `recreateTreeHelper` over the tree.  On an abort (`.error`,
the uncaught `statSync` throw of the first pass) the effects already
performed before the throw are not recorded — no property here depends
on the aborted trace. -/
def recreateTree (art : Artifact) (env : RestoreEnv) (snapName : String) :
    Except Unit (List REff × List RDiag) :=
  let dirPath := restoreDirPath art snapName
  match pass1 env dirPath art.files with
  | .error u => .error u
  | .ok r1 =>
    let r2 := helperList env.store dirPath art.tree.children
    .ok (.mkdirp dirPath :: (r1.1 ++ r2.1), r1.2 ++ r2.2)

/-! ### Observation helpers for the theorems -/

/- All blob nodes reachable in a child list, with the destination path
each would restore to and its digest. -/
mutual
def blobsNode (parent : List String) (t : TObj) :
    List (List String × String) :=
  match t with
  | .node ty n h kids =>
    match ty with
    | .tree => blobsList (parent ++ [n]) kids
    | .blob => [(parent ++ [n], h)]
def blobsList (parent : List String) (ts : TList) :
    List (List String × String) :=
  match ts with
  | .nil => []
  | .cons c rest => blobsNode parent c ++ blobsList parent rest
end

/- Number of blob nodes reachable in a tree. -/
mutual
def blobCountNode : TObj → Nat
  | .node ty _ _ kids =>
    match ty with
    | .tree => blobCountList kids
    | .blob => 1
def blobCountList : TList → Nat
  | .nil => 0
  | .cons c rest => blobCountNode c + blobCountList rest
end

/- Every node name occurring in a tree (root included). -/
mutual
def namesNode : TObj → List String
  | .node _ n _ kids => n :: namesList kids
def namesList : TList → List String
  | .nil => []
  | .cons c rest => namesNode c ++ namesList rest
end

/-- The artifacts carried by the `writeArtifact` effects of a trace. -/
def artifactsOf : List Eff → List Artifact
  | [] => []
  | .writeArtifact _ a :: rest => a :: artifactsOf rest
  | _ :: rest => artifactsOf rest

/-- The contents carried by the `writeObject` effects of a trace. -/
def objectWritesOf : List Eff → List String
  | [] => []
  | .writeObject _ c :: rest => c :: objectWritesOf rest
  | _ :: rest => objectWritesOf rest

/-- Log payloads carried by `writeLog` effects of a trace. -/
def logWritesOf : List Eff → List Json
  | [] => []
  | .writeLog _ c :: rest => c :: logWritesOf rest
  | _ :: rest => logWritesOf rest

/-- A path is inside the `.subsys` metadata directory. -/
def underSubsys (p : List String) : Bool :=
  match p with
  | ".subsys" :: _ => true
  | _ => false

/-- The destination path and content of a `writeFile` restore effect. -/
def writeProj : REff → Option (List String × String)
  | .writeFile p c => some (p, c)
  | .mkdirp _ => none

/-- The write effects of a restore result (`none` when it aborted). -/
def resultWrites : Except Unit (List REff × List RDiag) →
    Option (List (List String × String))
  | .error _ => none
  | .ok r => some (r.1.filterMap writeProj)

/-- The diagnostics of a restore result (`none` when it aborted). -/
def resultDiags : Except Unit (List REff × List RDiag) →
    Option (List RDiag)
  | .error _ => none
  | .ok r => some r.2

/-- A concrete injective stand-in digest function for evaluating the
model on closed inputs (everything else is parametric in `sha1`). -/
def fakeHash (s : String) : String := "h" ++ toString s.length ++ "q" ++ s

/-- Fixture artifact for evaluating the reconstructor: a root tree
reaching two blobs `a` and `b`. -/
def artC4 : Artifact :=
  { tree := .node .tree "" "th"
      (.cons (.node .blob "a" "aa11" .nil)
        (.cons (.node .blob "b" "bb22" .nil) .nil)),
    files := [] }

/-- Fixture restore environment whose store holds only blob `a`'s
object. -/
def envC4 : RestoreEnv :=
  ⟨fun k => if k = ("aa", "11") then some "CA" else none, fun _ => some true⟩

/-! ## Theorems -/

/-! ### The comparator is a total order -/

theorem cmpNatList_eq_iff (a b : List Nat) : cmpNatList a b = .eq ↔ a = b := by
  induction a generalizing b with
  | nil => cases b <;> simp [cmpNatList]
  | cons x xs ih =>
    cases b with
    | nil => simp [cmpNatList]
    | cons y ys =>
      simp only [cmpNatList]
      split_ifs with h1 h2
      · constructor
        · intro h; exact absurd h (by simp)
        · intro h; injection h with hx hs; omega
      · constructor
        · intro h; exact absurd h (by simp)
        · intro h; injection h with hx hs; omega
      · have hxy : x = y := by omega
        subst hxy
        rw [ih]
        constructor
        · intro h; rw [h]
        · intro h; injection h

theorem cmpNatList_swap (a b : List Nat) :
    (cmpNatList a b).swap = cmpNatList b a := by
  induction a generalizing b with
  | nil => cases b <;> simp [cmpNatList, Ordering.swap]
  | cons x xs ih =>
    cases b with
    | nil => simp [cmpNatList, Ordering.swap]
    | cons y ys =>
      simp only [cmpNatList]
      split_ifs with g1 g2 g3 <;> first | omega | rfl | exact ih ys

theorem cmpNatList_cons_lt {x y : Nat} {xs ys : List Nat} :
    cmpNatList (x :: xs) (y :: ys) = .lt ↔
      x < y ∨ (x = y ∧ cmpNatList xs ys = .lt) := by
  simp only [cmpNatList]
  split_ifs with g1 g2
  · simp [g1]
  · constructor
    · intro h; exact absurd h (by simp)
    · intro h; rcases h with h | ⟨h, _⟩ <;> omega
  · have hxy : x = y := by omega
    simp [hxy]

theorem cmpNatList_lt_trans {a b c : List Nat} (h1 : cmpNatList a b = .lt)
    (h2 : cmpNatList b c = .lt) : cmpNatList a c = .lt := by
  induction a generalizing b c with
  | nil =>
    cases b with
    | nil => simp [cmpNatList] at h1
    | cons y ys =>
      cases c with
      | nil => simp [cmpNatList] at h2
      | cons z zs => simp [cmpNatList]
  | cons x xs ih =>
    cases b with
    | nil => simp [cmpNatList] at h1
    | cons y ys =>
      cases c with
      | nil => simp [cmpNatList] at h2
      | cons z zs =>
        rw [cmpNatList_cons_lt] at h1 h2 ⊢
        rcases h1 with g1 | ⟨g1, r1⟩ <;> rcases h2 with g2 | ⟨g2, r2⟩
        · exact Or.inl (by omega)
        · exact Or.inl (by omega)
        · exact Or.inl (by omega)
        · exact Or.inr ⟨by omega, by subst g1; exact ih r1 r2⟩

theorem ordering_then_eq_iff {o₁ o₂ : Ordering} :
    o₁.then o₂ = .eq ↔ o₁ = .eq ∧ o₂ = .eq := by
  cases o₁ <;> simp [Ordering.then]

theorem ordering_then_lt_iff {o₁ o₂ : Ordering} :
    o₁.then o₂ = .lt ↔ o₁ = .lt ∨ (o₁ = .eq ∧ o₂ = .lt) := by
  cases o₁ <;> simp [Ordering.then]

theorem ordering_swap_then (o₁ o₂ : Ordering) :
    (o₁.then o₂).swap = o₁.swap.then o₂.swap := by
  cases o₁ <;> simp [Ordering.then, Ordering.swap]

theorem char_key_inj {a b : Char} (h1 : charPrimary a = charPrimary b)
    (h2 : charCase a = charCase b) : a = b := by
  have key : a.toNat = b.toNat := by
    unfold charPrimary at h1
    unfold charCase at h2
    split_ifs at h1 h2 <;> omega
  exact Char.ext (UInt32.ext key)

theorem map_key_inj : ∀ {l₁ l₂ : List Char},
    l₁.map charPrimary = l₂.map charPrimary →
    l₁.map charCase = l₂.map charCase → l₁ = l₂
  | [], [], _, _ => rfl
  | [], _ :: _, h1, _ => by simp at h1
  | _ :: _, [], h1, _ => by simp at h1
  | a :: as, b :: bs, h1, h2 => by
    simp only [List.map_cons, List.cons.injEq] at h1 h2
    exact List.cons_eq_cons.mpr
      ⟨char_key_inj h1.1 h2.1, map_key_inj h1.2 h2.2⟩

theorem localeCmp_eq_iff {s t : String} : localeCmp s t = .eq ↔ s = t := by
  constructor
  · intro h
    rw [localeCmp, ordering_then_eq_iff, cmpNatList_eq_iff, cmpNatList_eq_iff]
      at h
    exact String.ext (map_key_inj h.1 h.2)
  · intro h
    subst h
    rw [localeCmp, ordering_then_eq_iff, cmpNatList_eq_iff, cmpNatList_eq_iff]
    exact ⟨rfl, rfl⟩

theorem localeCmp_swap (s t : String) :
    (localeCmp s t).swap = localeCmp t s := by
  rw [localeCmp, localeCmp, ordering_swap_then, cmpNatList_swap,
    cmpNatList_swap]

theorem localeCmp_lt_trans {s t u : String} (h1 : localeCmp s t = .lt)
    (h2 : localeCmp t u = .lt) : localeCmp s u = .lt := by
  rw [localeCmp, ordering_then_lt_iff] at h1 h2 ⊢
  rcases h1 with g1 | ⟨g1, r1⟩ <;> rcases h2 with g2 | ⟨g2, r2⟩
  · exact Or.inl (cmpNatList_lt_trans g1 g2)
  · rw [cmpNatList_eq_iff] at g2
    exact Or.inl (g2 ▸ g1)
  · rw [cmpNatList_eq_iff] at g1
    exact Or.inl (g1 ▸ g2)
  · rw [cmpNatList_eq_iff] at g1 g2
    exact Or.inr ⟨by rw [cmpNatList_eq_iff]; rw [g1, g2],
      cmpNatList_lt_trans r1 r2⟩

theorem ordering_isLE_cases {o : Ordering} (h : o.isLE = true) :
    o = .lt ∨ o = .eq := by
  cases o <;> simp_all [Ordering.isLE]

theorem localeCmp_isLE_total (s t : String) :
    (localeCmp s t).isLE = true ∨ (localeCmp t s).isLE = true := by
  rcases h : localeCmp s t with _ | _ | _
  · exact Or.inl rfl
  · exact Or.inl rfl
  · right
    rw [← localeCmp_swap s t, h]
    rfl

theorem localeCmp_isLE_trans {s t u : String}
    (h1 : (localeCmp s t).isLE = true) (h2 : (localeCmp t u).isLE = true) :
    (localeCmp s u).isLE = true := by
  rcases ordering_isLE_cases h1 with g1 | g1 <;>
    rcases ordering_isLE_cases h2 with g2 | g2
  · rw [localeCmp_lt_trans g1 g2]; rfl
  · rw [localeCmp_eq_iff] at g2
    rw [← g2, g1]; rfl
  · rw [localeCmp_eq_iff] at g1
    rw [g1, g2]; rfl
  · rw [localeCmp_eq_iff] at g1
    rw [g1, g2]; rfl

theorem localeCmp_isLE_antisymm {s t : String}
    (h1 : (localeCmp s t).isLE = true) (h2 : (localeCmp t s).isLE = true) :
    s = t := by
  rcases ordering_isLE_cases h1 with g1 | g1
  · rw [← localeCmp_swap s t, g1] at h2
    exact absurd h2 (by simp [Ordering.swap, Ordering.isLE])
  · exact localeCmp_eq_iff.mp g1

/-! ### Stable sorting facts -/

theorem sortKids_perm (l : List TObj) : (sortKids l).Perm l :=
  List.perm_insertionSort _ l

theorem sortKids_sorted (l : List TObj) :
    (sortKids l).Pairwise (fun a b => kidLE a b = true) := by
  haveI : IsTotal TObj (fun a b => kidLE a b = true) :=
    ⟨fun a b => localeCmp_isLE_total a.name b.name⟩
  haveI : IsTrans TObj (fun a b => kidLE a b = true) :=
    ⟨fun _ _ _ h1 h2 => localeCmp_isLE_trans h1 h2⟩
  exact List.sorted_insertionSort _ l

theorem entSort_perm (l : List (String × FSNode)) :
    (l.insertionSort (fun a b => entLE a b = true)).Perm l :=
  List.perm_insertionSort _ l

/-- A sorted list is determined by its multiset of elements, provided the
comparator is antisymmetric on those elements. -/
theorem sorted_perm_eq {α : Type} {le : α → α → Bool} :
    ∀ {l₁ l₂ : List α}, l₁.Perm l₂ →
      l₁.Pairwise (fun a b => le a b = true) →
      l₂.Pairwise (fun a b => le a b = true) →
      (∀ a ∈ l₁, ∀ b ∈ l₁, le a b = true → le b a = true → a = b) →
      l₁ = l₂
  | [], l₂, hp, _, _, _ => (hp.symm.eq_nil).symm
  | a :: t₁, [], hp, _, _, _ => by
    exact absurd hp.eq_nil (by simp)
  | a :: t₁, b :: t₂, hp, hs₁, hs₂, ha => by
    by_cases hab : a = b
    · subst hab
      have htp : t₁.Perm t₂ := hp.cons_inv
      have := sorted_perm_eq htp (List.pairwise_cons.mp hs₁).2
        (List.pairwise_cons.mp hs₂).2
        (fun x hx y hy => ha x (List.mem_cons_of_mem _ hx) y
          (List.mem_cons_of_mem _ hy))
      rw [this]
    · have hbmem : b ∈ a :: t₁ := hp.mem_iff.mpr (List.mem_cons_self b t₂)
      have hamem : a ∈ b :: t₂ := hp.mem_iff.mp (List.mem_cons_self a t₁)
      have hbt₁ : b ∈ t₁ := by
        rcases List.mem_cons.mp hbmem with h | h
        · exact absurd h.symm hab
        · exact h
      have hat₂ : a ∈ t₂ := by
        rcases List.mem_cons.mp hamem with h | h
        · exact absurd h hab
        · exact h
      have h1 : le a b = true := (List.pairwise_cons.mp hs₁).1 b hbt₁
      have h2 : le b a = true := (List.pairwise_cons.mp hs₂).1 a hat₂
      exact absurd (ha a (List.mem_cons_self a t₁) b hbmem h1 h2) hab

/-- Sorting with `localeCompare` on names is permutation-invariant as long
as the names are pairwise distinct. -/
theorem sortKids_congr {l₁ l₂ : List TObj} (h : l₁.Perm l₂)
    (hnd : (l₂.map TObj.name).Nodup) : sortKids l₁ = sortKids l₂ := by
  have hp : (sortKids l₁).Perm (sortKids l₂) :=
    (sortKids_perm l₁).trans (h.trans (sortKids_perm l₂).symm)
  refine sorted_perm_eq hp (sortKids_sorted l₁) (sortKids_sorted l₂) ?_
  intro a hamem b hbmem hab hba
  have hmem : ∀ x ∈ sortKids l₁, x ∈ l₂ := fun x hx =>
    h.mem_iff.mp ((sortKids_perm l₁).mem_iff.mp hx)
  have hnames : a.name = b.name :=
    localeCmp_isLE_antisymm hab hba
  exact List.inj_on_of_nodup_map hnd (hmem a hamem) (hmem b hbmem) hnames

/-! ### Conversions and list views -/

theorem tlist_toList_ofList : ∀ l : List TObj, (TList.ofList l).toList = l
  | [] => rfl
  | t :: rest => by simp [TList.ofList, TList.toList, tlist_toList_ofList rest]

theorem fsEntries_toList_ofList :
    ∀ l : List (String × FSNode), (FSEntries.ofList l).toList = l
  | [] => rfl
  | (n, x) :: rest => by
    simp [FSEntries.ofList, FSEntries.toList, fsEntries_toList_ofList rest]

theorem calcKids_toList (sha1 : String → String) (ign : List String) :
    ∀ es : FSEntries,
      (calcKids sha1 ign es).toList = calcKidsL sha1 ign es.toList
  | .nil => rfl
  | .cons n x rest => by
    simp only [calcKids, FSEntries.toList, calcKidsL]
    split_ifs with h
    · exact calcKids_toList sha1 ign rest
    · simp [TList.toList, calcKids_toList sha1 ign rest]

theorem calcKidsL_perm (sha1 : String → String) (ign : List String)
    {l₁ l₂ : List (String × FSNode)} (h : l₁.Perm l₂) :
    (calcKidsL sha1 ign l₁).Perm (calcKidsL sha1 ign l₂) := by
  induction h with
  | nil => rfl
  | cons p t ih =>
    obtain ⟨n, x⟩ := p
    simp only [calcKidsL]
    split_ifs with h
    · exact ih
    · exact ih.cons _
  | swap p q t =>
    obtain ⟨n, x⟩ := p
    obtain ⟨m, y⟩ := q
    simp only [calcKidsL]
    split_ifs with h1 h2 <;> first
      | exact List.Perm.refl _
      | exact List.Perm.swap _ _ _
  | trans _ _ ih1 ih2 => exact ih1.trans ih2

theorem calcNode_name (sha1 : String → String) (ign : List String)
    (name : String) (fsn : FSNode) : (calcNode sha1 ign name fsn).name = name := by
  cases fsn <;> simp [calcNode, TObj.name]

theorem calcKidsL_names (sha1 : String → String) (ign : List String) :
    ∀ l : List (String × FSNode),
      (calcKidsL sha1 ign l).map TObj.name =
        (l.map Prod.fst).filter (fun n => !isExcluded ign n)
  | [] => rfl
  | (n, x) :: rest => by
    by_cases h : isExcluded ign n = true
    · simp [calcKidsL, h, calcKidsL_names sha1 ign rest]
    · simp only [Bool.not_eq_true] at h
      simp [calcKidsL, h, calcNode_name, calcKidsL_names sha1 ign rest]

theorem nodupNames_iff : ∀ l : List String, nodupNames l = true ↔ l.Nodup
  | [] => by simp [nodupNames]
  | n :: rest => by
    simp [nodupNames, nodupNames_iff rest, List.nodup_cons]

theorem fsEntries_names_eq :
    ∀ es : FSEntries, es.toList.map Prod.fst = es.names
  | .nil => rfl
  | .cons n x rest => by
    simp [FSEntries.toList, FSEntries.names, fsEntries_names_eq rest]

theorem canonEntries_toList :
    ∀ es : FSEntries, (canonEntries es).toList =
      es.toList.map (fun p => (p.1, canonFS p.2))
  | .nil => rfl
  | .cons n x rest => by
    simp [canonEntries, FSEntries.toList, canonEntries_toList rest]

/-! ### Hash determinism under enumeration-order permutations -/

mutual
theorem calcNode_canon (sha1 : String → String) (ign : List String) :
    ∀ fsn : FSNode, ndNode fsn = true → ∀ name,
      calcNode sha1 ign name (canonFS fsn) = calcNode sha1 ign name fsn
  | .file _, _, _ => rfl
  | .dir es, h, name => by
    simp only [ndNode, Bool.and_eq_true] at h
    have hkids : calcKids sha1 ign (canonEntries es) = calcKids sha1 ign es :=
      calcKids_canonEach sha1 ign es h.2
    simp only [canonFS, calcNode]
    have hS :
        (calcKids sha1 ign (FSEntries.ofList
          (((canonEntries es).toList).insertionSort
            (fun a b => entLE a b = true)))).toList =
          calcKidsL sha1 ign
            (((canonEntries es).toList).insertionSort
              (fun a b => entLE a b = true)) := by
      rw [calcKids_toList, fsEntries_toList_ofList]
    have hperm :
        (calcKids sha1 ign (FSEntries.ofList
          (((canonEntries es).toList).insertionSort
            (fun a b => entLE a b = true)))).toList.Perm
          (calcKids sha1 ign es).toList := by
      rw [hS, ← hkids, calcKids_toList]
      exact calcKidsL_perm sha1 ign (entSort_perm _)
    have hnd : ((calcKids sha1 ign es).toList.map TObj.name).Nodup := by
      rw [calcKids_toList, calcKidsL_names, fsEntries_names_eq]
      exact ((nodupNames_iff _).mp h.1).filter _
    rw [sortKids_congr hperm hnd]
theorem calcKids_canonEach (sha1 : String → String) (ign : List String) :
    ∀ es : FSEntries, ndEntries es = true →
      calcKids sha1 ign (canonEntries es) = calcKids sha1 ign es
  | .nil, _ => rfl
  | .cons n x rest, h => by
    simp only [ndEntries, Bool.and_eq_true] at h
    simp only [canonEntries, calcKids]
    split_ifs with hx
    · exact calcKids_canonEach sha1 ign rest h.2
    · rw [calcNode_canon sha1 ign x h.1 n, calcKids_canonEach sha1 ign rest h.2]
end

/-- C3 (corrected — mechanism): the children computed for a directory are
sorted by `localeCompare`, not by byte/lexicographic comparison.  For a
directory listing entries `a` and `B`, the computed children come out as
`["a", "B"]`, although `"B"` precedes `"a"` in byte/lexicographic order
(`'B'` is code 66, `'a'` is code 97) — so the child sequence is not
byte-lexicographically ascending. -/
theorem C3_counterexample :
    ((calcNode fakeHash [] ""
        (.dir (.cons "a" (.file "x") (.cons "B" (.file "y")
          .nil)))).children.toList.map TObj.name) = ["a", "B"] ∧
      'B'.toNat < 'a'.toNat := by
  constructor
  · decide
  · decide

/-- C3 (amended): for every directory tree and every permutation of the
order in which the filesystem enumerates each directory's entries
(formally: two trees with the same `canonFS` normal form, i.e. equal up to
per-directory enumeration order), with duplicate-free entry names, the
root digest returned by the tree hasher is the same — children are sorted
by name ascending with the (locale-aware) `localeCompare` comparator
before hashing, so the digest depends only on the sorted children. -/
theorem C3_tree_hash_enum_invariant (sha1 : String → String)
    (ign : List String) (d₁ d₂ : FSNode) (hnd₁ : ndNode d₁ = true)
    (hnd₂ : ndNode d₂ = true) (hsame : canonFS d₁ = canonFS d₂) :
    (calcNode sha1 ign "" d₁).hash = (calcNode sha1 ign "" d₂).hash := by
  rw [← calcNode_canon sha1 ign d₁ hnd₁ "",
    ← calcNode_canon sha1 ign d₂ hnd₂ "", hsame]

/-- Witness for C3: two enumerations of the same two-file directory, in
opposite orders, produce the same root digest. -/
theorem C3_tree_hash_enum_invariant_witness :
    ndNode (FSNode.dir (.cons "b" (.file "x") (.cons "a" (.file "y")
        .nil))) = true ∧
      ndNode (FSNode.dir (.cons "a" (.file "y") (.cons "b" (.file "x")
        .nil))) = true ∧
      canonFS (FSNode.dir (.cons "b" (.file "x") (.cons "a" (.file "y")
          .nil))) =
        canonFS (FSNode.dir (.cons "a" (.file "y") (.cons "b" (.file "x")
          .nil))) ∧
      (calcNode fakeHash [] "" (FSNode.dir (.cons "b" (.file "x")
          (.cons "a" (.file "y") .nil)))).hash =
        (calcNode fakeHash [] "" (FSNode.dir (.cons "a" (.file "y")
          (.cons "b" (.file "x") .nil)))).hash :=
  ⟨by decide, by decide, rfl,
    C3_tree_hash_enum_invariant fakeHash [] _ _ (by decide) (by decide) rfl⟩

/-! ### Reserved names never appear in a computed tree -/

theorem mem_namesList_iff {n : String} :
    ∀ ts : TList, n ∈ namesList ts ↔ ∃ t ∈ ts.toList, n ∈ namesNode t
  | .nil => by simp [namesList, TList.toList]
  | .cons c rest => by
    simp [namesList, TList.toList, mem_namesList_iff rest]

theorem isExcluded_nil_of {ign : List String} {n : String}
    (h : isExcluded ign n = false) : isExcluded [] n = false := by
  simp only [isExcluded, Bool.or_eq_false_iff] at h ⊢
  simp_all

mutual
theorem calcNode_names_ok (sha1 : String → String) (ign : List String) :
    ∀ fsn : FSNode, ∀ name : String, isExcluded [] name = false →
      ∀ n ∈ namesNode (calcNode sha1 ign name fsn), isExcluded [] n = false
  | .file _, name, hname, n, hn => by
    simp [calcNode, namesNode, namesList] at hn
    exact hn ▸ hname
  | .dir es, name, hname, n, hn => by
    simp only [calcNode, namesNode, List.mem_cons] at hn
    rcases hn with h | h
    · exact h ▸ hname
    · rw [mem_namesList_iff, tlist_toList_ofList] at h
      obtain ⟨t, ht, hnt⟩ := h
      have ht' : t ∈ (calcKids sha1 ign es).toList :=
        (sortKids_perm _).mem_iff.mp ht
      have : n ∈ namesList (calcKids sha1 ign es) :=
        (mem_namesList_iff _).mpr ⟨t, ht', hnt⟩
      exact calcKids_names_ok sha1 ign es n this
theorem calcKids_names_ok (sha1 : String → String) (ign : List String) :
    ∀ es : FSEntries, ∀ n ∈ namesList (calcKids sha1 ign es),
      isExcluded [] n = false
  | .nil, n, hn => by simp [calcKids, namesList] at hn
  | .cons m x rest, n, hn => by
    by_cases hx : isExcluded ign m = true
    · rw [show calcKids sha1 ign (.cons m x rest) =
        calcKids sha1 ign rest by simp [calcKids, hx]] at hn
      exact calcKids_names_ok sha1 ign rest n hn
    · simp only [Bool.not_eq_true] at hx
      rw [show calcKids sha1 ign (.cons m x rest) =
        .cons (calcNode sha1 ign m x) (calcKids sha1 ign rest) by
          simp [calcKids, hx]] at hn
      simp only [namesList, List.mem_append] at hn
      rcases hn with h | h
      · exact calcNode_names_ok sha1 ign x m (isExcluded_nil_of hx) n h
      · exact calcKids_names_ok sha1 ign rest n h
end

/-- C10: the tree hasher unconditionally excludes, at every depth, any
entry named `node_modules`, the `.subsys` metadata directory and the
reserved `config.json` filename, regardless of the ignore list passed to
it: no node of the returned tree carries one of those names. -/
theorem C10_reserved_names_excluded (sha1 : String → String)
    (ign : List String) (fsn : FSNode) :
    (namesNode (calcNode sha1 ign "" fsn)).all
      (fun n => !isExcluded [] n) = true := by
  rw [List.all_eq_true]
  intro n hn
  have := calcNode_names_ok sha1 ign fsn "" (by decide) n hn
  simp [this]

/-! ### The persisted artifact and the object-store writes of `snap` -/

/-- C1 (code bug): a successful `snap` of a directory holding one
non-excluded file persists an artifact whose `files` list is empty even
though its `tree` reaches one blob — `snapshotData` is serialized,
compressed and written (snap.ts line 187) before `processEntry` starts
populating `snapshotData.files` (line 305), so the persisted `files` list
is always `[]`. -/
theorem C1_persisted_files_empty :
    (snap fakeHash
        { fs := .cons "a.txt" (.file "hello") .nil, logSt := none,
          snapshotDirExists := true, objectsDirExists := true,
          store := ⟨[], fun _ => none⟩ } "alpha").outcome = .ok ∧
      (artifactsOf (snap fakeHash
        { fs := .cons "a.txt" (.file "hello") .nil, logSt := none,
          snapshotDirExists := true, objectsDirExists := true,
          store := ⟨[], fun _ => none⟩ } "alpha").effects).map
          Artifact.files = [[]] ∧
      (artifactsOf (snap fakeHash
        { fs := .cons "a.txt" (.file "hello") .nil, logSt := none,
          snapshotDirExists := true, objectsDirExists := true,
          store := ⟨[], fun _ => none⟩ } "alpha").effects).map
          (fun a => blobCountNode a.tree) = [1] :=
  ⟨by decide, by decide, by decide⟩

/-- C2 (code bug): snapshotting a directory whose ignore file lists
`secret.env` literally leaves that entry out of the computed (and
persisted) tree, but its bytes ARE written to the Object Store:
`processEntry` walks the directory a second time with no exclusion checks
and stores every file it finds. -/
theorem C2_ignored_entry_bytes_written :
    (snap fakeHash
        { fs := .cons "secret.env" (.file "S3CR3T")
            (.cons "a.txt" (.file "hi")
              (.cons ".subsysignore" (.file "secret.env\n") .nil)),
          logSt := none, snapshotDirExists := true,
          objectsDirExists := true,
          store := ⟨[], fun _ => none⟩ } "alpha").outcome = .ok ∧
      (artifactsOf (snap fakeHash
        { fs := .cons "secret.env" (.file "S3CR3T")
            (.cons "a.txt" (.file "hi")
              (.cons ".subsysignore" (.file "secret.env\n") .nil)),
          logSt := none, snapshotDirExists := true,
          objectsDirExists := true,
          store := ⟨[], fun _ => none⟩ } "alpha").effects).map
          (fun a => (namesNode a.tree).contains "secret.env") = [false] ∧
      (objectWritesOf (snap fakeHash
        { fs := .cons "secret.env" (.file "S3CR3T")
            (.cons "a.txt" (.file "hi")
              (.cons ".subsysignore" (.file "secret.env\n") .nil)),
          logSt := none, snapshotDirExists := true,
          objectsDirExists := true,
          store := ⟨[], fun _ => none⟩ } "alpha").effects).contains
          "S3CR3T" = true :=
  ⟨by decide, by decide, by decide⟩

/-! ### Frame property of `snap` -/

theorem mkdir_one_subsys (b : Bool) (rest : List String) :
    ((if b then ([] : List Eff)
        else [.mkdirp (".subsys" :: rest)])).all
      (fun e => underSubsys e.path) = true := by
  cases b <;> rfl

theorem mkdir_pre_subsys (b₁ b₂ : Bool) :
    (((if b₁ then ([] : List Eff)
        else [.mkdirp [".subsys", "snapshots"]]) ++
      (if b₂ then ([] : List Eff)
        else [.mkdirp [".subsys", "objects"]]))).all
      (fun e => underSubsys e.path) = true := by
  cases b₁ <;> cases b₂ <;> rfl

mutual
theorem procNode_effects_subsys (sha1 : String → String) :
    ∀ (fsn : FSNode) (rel : String) (st : StoreSt),
      ((procNode sha1 rel st fsn).2.1).all
        (fun e => underSubsys e.path) = true
  | .file c, rel, st => by
    simp only [procNode, putObject]
    split_ifs with h <;> rfl
  | .dir es, rel, st => procEntries_effects_subsys sha1 es rel st
theorem procEntries_effects_subsys (sha1 : String → String) :
    ∀ (es : FSEntries) (rel : String) (st : StoreSt),
      ((procEntries sha1 rel st es).2.1).all
        (fun e => underSubsys e.path) = true
  | .nil, rel, st => rfl
  | .cons n x rest, rel, st => by
    simp only [procEntries, List.all_append, Bool.and_eq_true]
    exact ⟨procNode_effects_subsys sha1 x (joinRel rel n) st,
      procEntries_effects_subsys sha1 rest rel
        (procNode sha1 (joinRel rel n) st x).1⟩
end

/-- C9: every write `snap(cwd, name)` performs targets the `.subsys`
metadata directory under `cwd` — the metadata directories, the artifact,
the log, and the object files; nothing outside `.subsys` is created,
modified or deleted (the model records every mkdir/write the source
performs, and the walks only read the snapshotted files). -/
theorem C9_frame (sha1 : String → String) (env : SnapEnv) (name : String) :
    ((snap sha1 env name).effects).all (fun e => underSubsys e.path) =
      true := by
  by_cases h1 : (sanitizeName name != name) = true
  · simp [snap, h1]
  · rcases hig : getIgnoreList env.fs with u | ign
    · simp only [snap, h1, hig, if_false, Bool.false_eq_true]
      exact mkdir_pre_subsys env.snapshotDirExists env.objectsDirExists
    · by_cases h2 : isDuplicateName env.logSt (sanitizeName name) = true
      · simp only [snap, h1, hig, h2, if_false, if_true, Bool.false_eq_true]
        exact mkdir_pre_subsys env.snapshotDirExists env.objectsDirExists
      · by_cases h3 : isDuplicateSHA env.logSt
            (calcNode sha1 ign "" (.dir env.fs)).hash = true
        · simp only [snap, h1, hig, h2, h3, if_false, if_true,
            Bool.false_eq_true]
          exact mkdir_pre_subsys env.snapshotDirExists env.objectsDirExists
        · rcases hlog : (match env.logSt with
              | none => some []
              | some (Except.ok (Json.arr xs)) => some xs
              | _ => none : Option (List Json)) with _ | xs
          · simp only [snap, h1, hig, h2, h3, hlog, if_false,
              Bool.false_eq_true, List.all_append, Bool.and_eq_true]
            exact ⟨⟨mkdir_one_subsys env.snapshotDirExists _,
              mkdir_one_subsys env.objectsDirExists _⟩, rfl⟩
          · simp only [snap, h1, hig, h2, h3, hlog, if_false,
              Bool.false_eq_true, List.all_append, Bool.and_eq_true]
            exact ⟨⟨⟨mkdir_one_subsys env.snapshotDirExists _,
              mkdir_one_subsys env.objectsDirExists _⟩, rfl⟩,
              procNode_effects_subsys sha1 _ "" env.store⟩

/-! ### Duplicate refusal -/

theorem pre_no_writes (b₁ b₂ : Bool) :
    artifactsOf
        ((if b₁ then ([] : List Eff)
          else [.mkdirp [".subsys", "snapshots"]]) ++
          (if b₂ then ([] : List Eff)
            else [.mkdirp [".subsys", "objects"]])) = [] ∧
      logWritesOf
        ((if b₁ then ([] : List Eff)
          else [.mkdirp [".subsys", "snapshots"]]) ++
          (if b₂ then ([] : List Eff)
            else [.mkdirp [".subsys", "objects"]])) = [] ∧
      objectWritesOf
        ((if b₁ then ([] : List Eff)
          else [.mkdirp [".subsys", "snapshots"]]) ++
          (if b₂ then ([] : List Eff)
            else [.mkdirp [".subsys", "objects"]])) = [] := by
  cases b₁ <;> cases b₂ <;> exact ⟨rfl, rfl, rfl⟩

/-- C5: when the duplicate-name check or the duplicate-digest check holds
(for a valid name, with the ignore list resolved), `snap` refuses with the
specific cause — `dupName` when the name check fires (it runs first),
`dupContent` otherwise — and performs no partial writes: no artifact is
written, no log entry appended, no object bytes stored. -/
theorem C5_duplicate_refusal_no_writes (sha1 : String → String)
    (env : SnapEnv) (name : String) (ign : List String)
    (hvalid : sanitizeName name = name)
    (hig : getIgnoreList env.fs = .ok ign)
    (hdup : isDuplicateName env.logSt name = true ∨
      isDuplicateSHA env.logSt
        (calcNode sha1 ign "" (.dir env.fs)).hash = true) :
    (snap sha1 env name).outcome =
        (if isDuplicateName env.logSt name then SnapOutcome.dupName
         else SnapOutcome.dupContent) ∧
      artifactsOf (snap sha1 env name).effects = [] ∧
      logWritesOf (snap sha1 env name).effects = [] ∧
      objectWritesOf (snap sha1 env name).effects = [] := by
  by_cases h2 : isDuplicateName env.logSt name = true
  · simp only [snap, hvalid, bne_self_eq_false, Bool.false_eq_true,
      if_false, hig, h2, if_true]
    exact ⟨trivial, pre_no_writes env.snapshotDirExists env.objectsDirExists⟩
  · have h3 : isDuplicateSHA env.logSt
        (calcNode sha1 ign "" (.dir env.fs)).hash = true := by
      rcases hdup with h | h
      · exact absurd h h2
      · exact h
    simp only [snap, hvalid, bne_self_eq_false, Bool.false_eq_true,
      if_false, hig, h2, h3, if_true]
    exact ⟨trivial, pre_no_writes env.snapshotDirExists env.objectsDirExists⟩

/-- Witness for C5: a log that already holds an entry named `alpha` makes
`snap` refuse a second `alpha` with the name-collision cause and no
artifact/log/object writes. -/
theorem C5_duplicate_refusal_no_writes_witness :
    sanitizeName "alpha" = "alpha" ∧
      getIgnoreList (.cons "a.txt" (.file "hi") .nil) = .ok [] ∧
      isDuplicateName
        (some (.ok (.arr [.obj [("treeName", .str "alpha"),
          ("SHA", .str "x")]]))) "alpha" = true ∧
      (snap fakeHash
        { fs := .cons "a.txt" (.file "hi") .nil,
          logSt := some (.ok (.arr [.obj [("treeName", .str "alpha"),
            ("SHA", .str "x")]])),
          snapshotDirExists := true, objectsDirExists := true,
          store := ⟨[], fun _ => none⟩ } "alpha").outcome =
          SnapOutcome.dupName ∧
      artifactsOf (snap fakeHash
        { fs := .cons "a.txt" (.file "hi") .nil,
          logSt := some (.ok (.arr [.obj [("treeName", .str "alpha"),
            ("SHA", .str "x")]])),
          snapshotDirExists := true, objectsDirExists := true,
          store := ⟨[], fun _ => none⟩ } "alpha").effects = [] := by
  refine ⟨by decide, rfl, by decide, ?_, ?_⟩
  · have := (C5_duplicate_refusal_no_writes fakeHash
      { fs := .cons "a.txt" (.file "hi") .nil,
        logSt := some (.ok (.arr [.obj [("treeName", .str "alpha"),
          ("SHA", .str "x")]])),
        snapshotDirExists := true, objectsDirExists := true,
        store := ⟨[], fun _ => none⟩ } "alpha" []
      (by decide) rfl (Or.inl (by decide))).1
    simpa using this
  · exact (C5_duplicate_refusal_no_writes fakeHash
      { fs := .cons "a.txt" (.file "hi") .nil,
        logSt := some (.ok (.arr [.obj [("treeName", .str "alpha"),
          ("SHA", .str "x")]])),
        snapshotDirExists := true, objectsDirExists := true,
        store := ⟨[], fun _ => none⟩ } "alpha" []
      (by decide) rfl (Or.inl (by decide))).2.1

/-! ### Fail-closed duplicate checks -/

/-- C7: when reading or parsing `logTrack.json` fails during a duplicate
check (the log state is a read/parse error), both `isDuplicateName` and
`isDuplicateSHA` return `true` — fail closed — so a `snap` run against
such a log refuses with the duplicate-name cause instead of overwriting
history. -/
theorem C7_fail_closed (sha1 : String → String) (env : SnapEnv)
    (name hash : String) (ign : List String)
    (hlog : env.logSt = some (.error ()))
    (hvalid : sanitizeName name = name)
    (hig : getIgnoreList env.fs = .ok ign) :
    isDuplicateName env.logSt name = true ∧
      isDuplicateSHA env.logSt hash = true ∧
      (snap sha1 env name).outcome = SnapOutcome.dupName := by
  refine ⟨by rw [hlog]; rfl, by rw [hlog]; rfl, ?_⟩
  have h2 : isDuplicateName env.logSt name = true := by rw [hlog]; rfl
  simp only [snap, hvalid, bne_self_eq_false, Bool.false_eq_true, if_false,
    hig, h2, if_true]

/-- Witness for C7: with an unreadable log, creating a fresh snapshot of
a one-file directory is refused as a duplicate. -/
theorem C7_fail_closed_witness :
    ({ fs := .cons "a.txt" (.file "hi") .nil,
        logSt := some (.error ()), snapshotDirExists := true,
        objectsDirExists := true,
        store := ⟨[], fun _ => none⟩ } : SnapEnv).logSt =
        some (.error ()) ∧
      sanitizeName "alpha" = "alpha" ∧
      isDuplicateName (some (.error ())) "alpha" = true ∧
      isDuplicateSHA (some (.error ())) "anyhash" = true ∧
      (snap fakeHash
        { fs := .cons "a.txt" (.file "hi") .nil,
          logSt := some (.error ()), snapshotDirExists := true,
          objectsDirExists := true,
          store := ⟨[], fun _ => none⟩ } "alpha").outcome =
        SnapOutcome.dupName := by
  refine ⟨rfl, by decide, ?_, ?_, ?_⟩
  · exact (C7_fail_closed fakeHash
      { fs := .cons "a.txt" (.file "hi") .nil,
        logSt := some (.error ()), snapshotDirExists := true,
        objectsDirExists := true, store := ⟨[], fun _ => none⟩ }
      "alpha" "anyhash" [] rfl (by decide) rfl).1
  · exact (C7_fail_closed fakeHash
      { fs := .cons "a.txt" (.file "hi") .nil,
        logSt := some (.error ()), snapshotDirExists := true,
        objectsDirExists := true, store := ⟨[], fun _ => none⟩ }
      "alpha" "anyhash" [] rfl (by decide) rfl).2.1
  · exact (C7_fail_closed fakeHash
      { fs := .cons "a.txt" (.file "hi") .nil,
        logSt := some (.error ()), snapshotDirExists := true,
        objectsDirExists := true, store := ⟨[], fun _ => none⟩ }
      "alpha" "anyhash" [] rfl (by decide) rfl).2.2

/-! ### Object store `put` -/

/-- C6 (corrected — counterexample): `put` on a digest whose object file
already exists (with the very same bytes) is not a no-op: the inlined
store write in `processEntry` only checks the shard directory's existence
and then calls `fs.writeFileSync(objectFile, fileContent)`
unconditionally, so the existing object file is rewritten. -/
theorem C6_counterexample :
    (StoreSt.objects
        ⟨["ha"], fun k => if k = ("ha", "llo") then some "x" else none⟩
        (objKey "hallo")) = some "x" ∧
      objectWritesOf
        (putObject
          ⟨["ha"], fun k => if k = ("ha", "llo") then some "x" else none⟩
          "hallo" "x").2 = ["x"] := by
  constructor
  · rfl
  · rfl

/-- C6 (amended): `put` always rewrites the object file, but it is
idempotent on the observable store state: since the digest determines the
content, calling `put(digest, bytes)` twice leaves the Object Store (its
shard directories and stored contents) in the same state as calling it
once. -/
theorem C6_put_idempotent_state (st : StoreSt) (h content : String) :
    (putObject (putObject st h content).1 h content).1 =
      (putObject st h content).1 := by
  by_cases hc : st.shards.contains (objKey h).1 = true
  · simp only [putObject, hc, if_true]
    congr 1
    funext k'
    by_cases hk : k' = objKey h <;> simp [hk]
  · simp only [putObject, hc, if_false, Bool.false_eq_true]
    have : ((objKey h).1 :: st.shards).contains (objKey h).1 = true := by
      simp [List.contains_cons]
    simp only [this, if_true]
    congr 1
    funext k'
    by_cases hk : k' = objKey h <;> simp [hk]

/-! ### Snapshot loader totality -/

/-- C8: the Snapshot Loader is a total function into an option — it never
propagates a thrown error — returning `none` exactly when the path is
missing or not a regular file, lacks the `.gz` artifact extension, fails
to decompress, or holds a payload `JSON.parse` rejects; and when a
well-formed payload sits behind the `.gz` extension it returns exactly
that parsed payload. -/
theorem C8_loader_total (pathName : String) (st : SnapFileState) :
    (decompressSnapshot pathName st = none ↔
      (st = .missing ∨ st = .notFile ∨ strEndsWith pathName ".gz" = false ∨
        st = .regular .corrupt ∨ st = .regular (.payload none))) ∧
      (∀ j : Json, decompressSnapshot pathName (.regular (.payload (some j))) =
        if strEndsWith pathName ".gz" = true then some j else none) := by
  constructor
  · cases st with
    | missing => simp [decompressSnapshot]
    | notFile => simp [decompressSnapshot]
    | regular gz =>
      by_cases he : strEndsWith pathName ".gz" = true
      · cases gz with
        | corrupt => simp [decompressSnapshot, he]
        | payload p => cases p <;> simp [decompressSnapshot, he]
      · simp only [Bool.not_eq_true] at he
        cases gz with
        | corrupt => simp [decompressSnapshot, he]
        | payload p => cases p <;> simp [decompressSnapshot, he]
  · intro j
    by_cases he : strEndsWith pathName ".gz" = true
    · simp [decompressSnapshot, he]
    · simp only [Bool.not_eq_true] at he
      simp [decompressSnapshot, he]

/-! ### Missing-object tolerance of the tree reconstructor -/

mutual
theorem helperNode_spec (store : String × String → Option String) :
    ∀ (t : TObj) (parent : List String),
      (helperNode store parent t).1.filterMap writeProj =
          (blobsNode parent t).filterMap (fun b =>
            (store (objKey b.2)).map (fun c => (b.1, c))) ∧
        (helperNode store parent t).2 =
          ((blobsNode parent t).filter (fun b =>
            (store (objKey b.2)).isNone)).map
            (fun b => RDiag.missingObject b.1)
  | .node ty n h kids, parent => by
    cases ty with
    | tree =>
      have ih := helperList_spec store kids (parent ++ [n])
      simp only [helperNode, blobsNode, List.filterMap_cons, writeProj]
      exact ⟨ih.1, ih.2⟩
    | blob =>
      cases hs : store (objKey h) with
      | none => simp [helperNode, blobsNode, hs, writeProj]
      | some c => simp [helperNode, blobsNode, hs, writeProj]
theorem helperList_spec (store : String × String → Option String) :
    ∀ (ts : TList) (parent : List String),
      (helperList store parent ts).1.filterMap writeProj =
          (blobsList parent ts).filterMap (fun b =>
            (store (objKey b.2)).map (fun c => (b.1, c))) ∧
        (helperList store parent ts).2 =
          ((blobsList parent ts).filter (fun b =>
            (store (objKey b.2)).isNone)).map
            (fun b => RDiag.missingObject b.1)
  | .nil, parent => ⟨rfl, rfl⟩
  | .cons c rest, parent => by
    have ih1 := helperNode_spec store c parent
    have ih2 := helperList_spec store rest parent
    simp only [helperList, blobsList, List.filterMap_append,
      List.filter_append, List.map_append, ih1.1, ih1.2, ih2.1, ih2.2,
      and_self]
end

/-- C4: restoring a snapshot artifact as `snap` persists it (its `files`
list is empty — see C1) never aborts; when exactly one reachable blob's
digest is absent from the Object Store, restoration emits exactly one
per-file missing-object diagnostic (for that blob), and every other
reachable blob whose object is present is restored with its stored
content. -/
theorem C4_missing_object_tolerance (art : Artifact) (env : RestoreEnv)
    (snapName : String) (b₀ : List String × String)
    (hf : art.files = [])
    (hm : ((blobsList (restoreDirPath art snapName)
        art.tree.children).filter
        (fun b => (env.store (objKey b.2)).isNone)) = [b₀]) :
    resultDiags (recreateTree art env snapName) =
        some [RDiag.missingObject b₀.1] ∧
      resultWrites (recreateTree art env snapName) =
        some ((blobsList (restoreDirPath art snapName)
          art.tree.children).filterMap
          (fun b => (env.store (objKey b.2)).map (fun c => (b.1, c)))) := by
  have hspec := helperList_spec env.store art.tree.children
    (restoreDirPath art snapName)
  simp only [recreateTree, hf, pass1]
  constructor
  · simp only [resultDiags, hspec.2, hm, List.nil_append, List.map_cons,
      List.map_nil]
  · simp only [resultWrites, List.filterMap_cons, writeProj,
      List.nil_append, hspec.1]

/-- Witness for C4: an artifact with two blobs, one of whose objects is
missing, restores without aborting, with exactly one missing-object
diagnostic, and writes the present blob's content. -/
theorem C4_missing_object_tolerance_witness :
    artC4.files = [] ∧
      ((blobsList (restoreDirPath artC4 "alpha") artC4.tree.children).filter
          (fun b => (envC4.store (objKey b.2)).isNone)) =
        [([".subsys", "snapshots", "alpha", "b"], "bb22")] ∧
      resultDiags (recreateTree artC4 envC4 "alpha") =
        some [RDiag.missingObject [".subsys", "snapshots", "alpha", "b"]] ∧
      resultWrites (recreateTree artC4 envC4 "alpha") =
        some [([".subsys", "snapshots", "alpha", "a"], "CA")] := by
  refine ⟨rfl, by decide, ?_, by decide⟩
  exact (C4_missing_object_tolerance artC4 envC4 "alpha"
    ([".subsys", "snapshots", "alpha", "b"], "bb22") rfl (by decide)).1
